import Mathlib

/-!
Verification of the `compress` (variadic fold) and `decorate` (decorator
composition) adaptors of the Fit higher-order-functions library, embedded
shallowly from `include/fit/compress.hpp` and `include/fit/decorate.hpp`.

Conventions of the embedding:
* C++ parameter packs `Ts&&... xs` become Lean `List` values.
* SFINAE partiality (an overload that may be ill-formed for some argument
  types) is modelled with `Option`: `none` means the call is not invocable
  (removed by SFINAE), `some r` means the call is well-formed with result `r`.
  The compile-time capability query (the declared `FIT_SFINAE_RESULT` /
  `FIT_SFINAE_MANUAL_RESULT` type computation) is embedded as a separate
  Boolean recursion mirroring the declared result type, so that its agreement
  with the actual call is a theorem rather than a definition.
* Invocation counts and evaluation order are observed through trace-collecting
  variants that mirror the source bodies call for call: each textual call of
  the wrapped operation in the source contributes exactly one trace entry.
* `const`-qualified member calls, which in C++ can be observed to leave the
  object unchanged, are modelled as functions returning the pair
  (result, post-state object), so that immutability is a provable statement.
-/

namespace Fit

/-- Embeds `detail::v_fold` of compress.hpp (total-operation form): the
recursive overload `operator()(f, state, x, xs...)` computes
`(*this)(f, f(state, x), xs...)`; the base overload `operator()(f, state)`
returns `state` unchanged. -/
def v_fold {σ : Type u} {α : Type v} (f : σ → α → σ) : σ → List α → σ
  | state, [] => state
  | state, x :: xs => v_fold f (f state x) xs

/-- Embeds `detail::v_fold` with a SFINAE-partial operation: `f state x = none`
models `result_of<const F&, id_<State>, id_<T>>` being ill-formed, which
removes the recursive overload, leaving the whole fold non-invocable. -/
def v_foldO {σ : Type u} {α : Type v} (f : σ → α → Option σ) :
    σ → List α → Option σ
  | state, [] => some state
  | state, x :: xs =>
    match f state x with
    | some s2 => v_foldO f s2 xs
    | none => none

/-- Embeds the declared result computation of `detail::v_fold`: the recursive
overload declares `FIT_SFINAE_MANUAL_RESULT(const v_fold&, id_<const F&>,
result_of<const F&, id_<State>, id_<T>>, id_<Ts>...)`, i.e. the fold is
invocable on `(state, x, xs...)` exactly when `f(state, x)` is well-formed
and the fold is invocable on its result with `xs...`; the base overload is
unconstrained. -/
def v_fold_invocable {σ : Type u} {α : Type v} (f : σ → α → Option σ) :
    σ → List α → Bool
  | _, [] => true
  | state, x :: xs =>
    match f state x with
    | some s2 => v_fold_invocable f s2 xs
    | none => false

/-- Trace-collecting variant of `detail::v_fold`: identical recursion, but the
single textual call `f(state, x)` of the recursive overload additionally
records the entry `(state, x, f state x)`. The base overload records
nothing, as it contains no call of `f`. -/
def v_fold_trace {σ : Type u} {α : Type v} (f : σ → α → σ) :
    σ → List α → σ × List (σ × α × σ)
  | state, [] => (state, [])
  | state, x :: xs =>
    let s2 := f state x
    let r := v_fold_trace f s2 xs
    (r.1, (state, x, s2) :: r.2)

/-- Embeds `compress_binary_adaptor_base::apply`: forwards the operation, the
moved seed and the arguments to `detail::v_fold`. -/
def compress_binary_apply {σ : Type u} {α : Type v} (f : σ → α → σ)
    (state : σ) (xs : List α) : σ :=
  v_fold f state xs

/-- Embeds `compress_binary_adaptor_base::apply` for a SFINAE-partial
operation. -/
def compress_binary_applyO {σ : Type u} {α : Type v} (f : σ → α → Option σ)
    (state : σ) (xs : List α) : Option σ :=
  v_foldO f state xs

/-- Declared capability of `compress_binary_adaptor_base::apply`:
`FIT_SFINAE_RESULT(detail::v_fold, id_<const F&>, id_<State>, id_<Ts>...)`,
the invocability of `v_fold` itself on the same arguments. -/
def compress_binary_invocable {σ : Type u} {α : Type v} (f : σ → α → Option σ)
    (state : σ) (xs : List α) : Bool :=
  v_fold_invocable f state xs

/-- Trace-collecting variant of `compress_binary_adaptor_base::apply`. -/
def compress_binary_trace {σ : Type u} {α : Type v} (f : σ → α → σ)
    (state : σ) (xs : List α) : σ × List (σ × α × σ) :=
  v_fold_trace f state xs

/-- Embeds `compress_unary_adaptor_base::apply`: calls `v_fold()(f, xs...)`,
so the first trailing argument binds to the `state` parameter of `v_fold`.
With an empty pack the call is `v_fold()(f)`, which matches neither overload
of `v_fold` (both require a state argument after `f`), hence `none`. -/
def compress_unary_apply {α : Type v} (f : α → α → α) : List α → Option α
  | [] => none
  | x :: xs => some (v_fold f x xs)

/-- Embeds `compress_unary_adaptor_base::apply` for a SFINAE-partial
operation. -/
def compress_unary_applyO {α : Type v} (f : α → α → Option α) :
    List α → Option α
  | [] => none
  | x :: xs => v_foldO f x xs

/-- Declared capability of `compress_unary_adaptor_base::apply`:
`FIT_SFINAE_RESULT(detail::v_fold, id_<const F&>, id_<Ts>...)`; with an
empty pack no overload of `v_fold` is viable. -/
def compress_unary_invocable {α : Type v} (f : α → α → Option α) :
    List α → Bool
  | [] => false
  | x :: xs => v_fold_invocable f x xs

/-- Trace-collecting variant of `compress_unary_adaptor_base::apply`. -/
def compress_unary_trace {α : Type v} (f : α → α → α) :
    List α → Option (α × List (α × α × α))
  | [] => none
  | x :: xs => some (v_fold_trace f x xs)

/-- Embeds `max_f` from the compress.hpp documentation example:
`return x > y ? x : y`. -/
def max_f (x y : Nat) : Nat := if x > y then x else y

/-- Embeds `sum_f` from the decorate.hpp documentation example:
`return x + y`. -/
def sum_f (x y : Nat) : Nat := x + y

/- Helper lemmas about the fold engine. -/

theorem v_fold_eq_foldl {σ : Type u} {α : Type v} (f : σ → α → σ) (z : σ)
    (xs : List α) : v_fold f z xs = xs.foldl f z := by
  induction xs generalizing z with
  | nil => rfl
  | cons x xs ih => simpa [v_fold, List.foldl] using ih (f z x)

theorem v_fold_invocable_eq_isSome {σ : Type u} {α : Type v}
    (f : σ → α → Option σ) (z : σ) (xs : List α) :
    v_fold_invocable f z xs = (v_foldO f z xs).isSome := by
  induction xs generalizing z with
  | nil => rfl
  | cons x xs ih =>
    simp only [v_fold_invocable, v_foldO]
    cases h : f z x with
    | none => rfl
    | some s2 => simpa using ih s2

theorem v_fold_trace_result {σ : Type u} {α : Type v} (f : σ → α → σ) (z : σ)
    (xs : List α) : (v_fold_trace f z xs).1 = v_fold f z xs := by
  induction xs generalizing z with
  | nil => rfl
  | cons x xs ih => simpa [v_fold_trace, v_fold] using ih (f z x)

theorem v_fold_trace_length {σ : Type u} {α : Type v} (f : σ → α → σ) (z : σ)
    (xs : List α) : (v_fold_trace f z xs).2.length = xs.length := by
  induction xs generalizing z with
  | nil => rfl
  | cons x xs ih => simpa [v_fold_trace] using ih (f z x)

theorem v_fold_trace_args {σ : Type u} {α : Type v} (f : σ → α → σ) (z : σ)
    (xs : List α) : (v_fold_trace f z xs).2.map (fun p => p.2.1) = xs := by
  induction xs generalizing z with
  | nil => rfl
  | cons x xs ih => simpa [v_fold_trace] using ih (f z x)

theorem v_fold_trace_eq_scanl {σ : Type u} {α : Type v} (f : σ → α → σ)
    (z : σ) (xs : List α) :
    (v_fold_trace f z xs).2 =
      (List.zip (List.scanl f z xs) xs).map (fun p => (p.1, p.2, f p.1 p.2)) := by
  induction xs generalizing z with
  | nil => rfl
  | cons x xs ih => simpa [v_fold_trace, List.scanl] using ih (f z x)

/-- C1: invoking the seeded fold adaptor `compress(f, z)` with zero trailing
arguments returns `z` unchanged with zero invocations of `f`; invoking it with
`(x, xs...)` equals invoking it with seed `f(z, x)` and arguments `xs...`;
hence `compress(f, z)(xs...)` is the strict left fold of `f` over `xs` seeded
with `z`, and in particular `compress(add, 0)(1, 2, 3) = 6`. -/
theorem compress_binary_fold_laws :
    (∀ (σ α : Type) (f : σ → α → σ) (z : σ),
      compress_binary_apply f z [] = z ∧ (compress_binary_trace f z []).2 = [])
    ∧ (∀ (σ α : Type) (f : σ → α → σ) (z : σ) (x : α) (xs : List α),
      compress_binary_apply f z (x :: xs) = compress_binary_apply f (f z x) xs)
    ∧ (∀ (σ α : Type) (f : σ → α → σ) (z : σ) (xs : List α),
      compress_binary_apply f z xs = xs.foldl f z)
    ∧ compress_binary_apply sum_f 0 [1, 2, 3] = 6 := by
  refine ⟨fun σ α f z => ⟨rfl, rfl⟩, fun σ α f z x xs => rfl, ?_, by decide⟩
  intro σ α f z xs
  exact v_fold_eq_foldl f z xs

/-- C2: the self-seeding adaptor `compress(f)` applied to a single argument
`x` returns `x` unchanged with zero calls to `f`, and applied to
`(x, y, xs...)` equals the explicitly-seeded fold with seed `f(x, y)` and
arguments `xs...`. -/
theorem compress_unary_fold_laws :
    (∀ (α : Type) (f : α → α → α) (x : α),
      compress_unary_apply f [x] = some x
      ∧ compress_unary_trace f [x] = some (x, []))
    ∧ (∀ (α : Type) (f : α → α → α) (x y : α) (xs : List α),
      compress_unary_apply f (x :: y :: xs)
        = some (compress_binary_apply f (f x y) xs)) := by
  exact ⟨fun α f x => ⟨rfl, rfl⟩, fun α f x y xs => rfl⟩

/-- Embeds `detail::decoration<D, T>` of decorate.hpp: a `compressed_pair`
of the decorator operation `d` (its `first`, via `get_decorator`) and the
auxiliary data `t` (its `second`, via `get_data`). The decorator operation
itself is a function taking the data, the target callable and the trailing
arguments. -/
structure Decoration (τ φ α ρ : Type _) where
  d : τ → φ → List α → ρ
  t : τ

/-- Embeds `detail::decorator_invoke<D, T, F>` of decorate.hpp: a
`compressed_pair<compressed_pair<D, T>, F>` holding the decorator operation
`d` (`get_decorator`), the auxiliary data `t` (`get_data`) and the target
callable `f` (`base_function`). -/
structure DecoratorInvoke (τ φ α ρ : Type _) where
  d : τ → φ → List α → ρ
  t : τ
  f : φ

/-- Embeds `decoration::operator()(F f) const`: constructs a
`decorator_invoke` from the decoration's pair and the target callable. -/
def Decoration.applyTo (dec : Decoration τ φ α ρ) (g : φ) :
    DecoratorInvoke τ φ α ρ :=
  ⟨dec.d, dec.t, g⟩

/-- Embeds `decoration::operator()(F f) const`, keeping the post-call state
of the decoration to express that the member function is `const`: the pair
holds the constructed `decorator_invoke` and the decoration afterwards. -/
def Decoration.applyToConst (dec : Decoration τ φ α ρ) (g : φ) :
    DecoratorInvoke τ φ α ρ × Decoration τ φ α ρ :=
  (⟨dec.d, dec.t, g⟩, dec)

/-- Embeds `decorate_adaptor_builder::apply::operator()(const F& f, T x)`:
`decorate(d)(x)` constructs `decoration<F, T>(f, move(x))`. -/
def decorate_apply (d : τ → φ → List α → ρ) (x : τ) : Decoration τ φ α ρ :=
  ⟨d, x⟩

/-- Embeds `decorator_invoke::operator()(Ts&&... xs) const`: calls
`get_decorator()(get_data(), base_function(), xs...)`, a single call of the
decorator operation with data first, target callable second, then the
trailing arguments. -/
def DecoratorInvoke.call (di : DecoratorInvoke τ φ α ρ) (xs : List α) : ρ :=
  di.d di.t di.f xs

/-- Trace-collecting variant of `decorator_invoke::operator()`: the body
contains exactly one textual call of the decorator operation, recorded as
the single trace entry `(data, target callable, arguments)`. -/
def DecoratorInvoke.callTrace (di : DecoratorInvoke τ φ α ρ) (xs : List α) :
    ρ × List (τ × φ × List α) :=
  (di.d di.t di.f xs, [(di.t, di.f, xs)])

/-- Embeds `decorator_invoke::operator() const`, keeping the post-call state
of the invocation object to express that the member function is `const` and
reads the stored triple through the `const` accessors `get_decorator`,
`get_data` and `base_function`. -/
def DecoratorInvoke.callConst (di : DecoratorInvoke τ φ α ρ) (xs : List α) :
    ρ × DecoratorInvoke τ φ α ρ :=
  (di.d di.t di.f xs, di)

/-- Repeated invocation of one `decorator_invoke` object: each call is the
`const` call on the object left by the previous call. -/
def DecoratorInvoke.callMany (di : DecoratorInvoke τ φ α ρ) :
    List (List α) → DecoratorInvoke τ φ α ρ × List ρ
  | [] => (di, [])
  | xs :: rest =>
    let step := di.callConst xs
    let r := step.2.callMany rest
    (r.1, step.1 :: r.2)

/-- Site of a compile-time failure descriptor: either the decorator
operation or the target callable, identified by the failing operation. -/
inductive FailureSite (δ φ : Type _) where
  | decoratorOp : δ → FailureSite δ φ
  | targetCallable : φ → FailureSite δ φ

/-- Chained compile-time failure descriptor, value-level rendering of the
type-level protocol: the failing operation together with the data, function
and argument types attached by `decorator_invoke_failure`. -/
structure FailureDescr (δ τ φ α : Type _) where
  site : FailureSite δ φ
  data : τ
  func : φ
  args : List α

/-- Embeds `decorator_invoke::failure`, which is
`failure_map<decorator_invoke_failure, D>`: the decorator operation `D` is
taken as the failing operation and its failure is instantiated, via
`decorator_invoke_failure::apply<Failure>::of<Ts...> :
Failure::of<const T&, const F&, Ts...>`, with the data type, the target
callable type and the argument types attached. `failure_map` itself lives
in reveal.hpp, outside the given sources; its role here is
modelled from the spec: it chains the inner operation's failure descriptor,
enriched with the outer context, without losing the original cause. -/
def DecoratorInvoke.failureDescr (di : DecoratorInvoke τ φ α ρ)
    (xs : List α) : FailureDescr (τ → φ → List α → ρ) τ φ α :=
  ⟨FailureSite.decoratorOp di.d, di.t, di.f, xs⟩

/-- C3: `decorate(d)(x)(g)(xs...)` equals `d(x, g, xs...)`, with the
arguments passed in exactly that fixed order (data, then target callable,
then trailing arguments) and with `d` invoked exactly once per call,
forwarding that single call's result. -/
theorem decorate_application_law :
    ∀ (τ φ α ρ : Type) (d : τ → φ → List α → ρ) (x : τ) (g : φ)
      (xs : List α),
      ((decorate_apply d x).applyTo g).call xs = d x g xs
      ∧ ((decorate_apply d x).applyTo g).callTrace xs
          = (d x g xs, [(x, g, xs)]) := by
  exact fun τ φ α ρ d x g xs => ⟨rfl, rfl⟩

/-- C4: at the public interfaces of the compress and decorate adaptors, the
compile-time capability query reports invocable if and only if the actual
call is well-formed: the declared-result recursion agrees with the call for
the binary-seeded fold, the unary fold and the decorator invocation. -/
theorem capability_soundness :
    (∀ (σ α : Type) (f : σ → α → Option σ) (z : σ) (xs : List α),
      compress_binary_invocable f z xs = true
        ↔ (compress_binary_applyO f z xs).isSome)
    ∧ (∀ (α : Type) (f : α → α → Option α) (xs : List α),
      compress_unary_invocable f xs = true
        ↔ (compress_unary_applyO f xs).isSome)
    ∧ (∀ (τ φ α ρ : Type) (d : τ → φ → List α → Option ρ) (x : τ) (g : φ)
        (xs : List α),
      (((decorate_apply d x).applyTo g).call xs).isSome ↔ (d x g xs).isSome) := by
  refine ⟨?_, ?_, fun τ φ α ρ d x g xs => Iff.rfl⟩
  · intro σ α f z xs
    simp [compress_binary_invocable, compress_binary_applyO,
      v_fold_invocable_eq_isSome]
  · intro α f xs
    cases xs with
    | nil => simp [compress_unary_invocable, compress_unary_applyO]
    | cons x xs =>
      simp [compress_unary_invocable, compress_unary_applyO,
        v_fold_invocable_eq_isSome]

/-- C5: a decorator-invocation object is invocable with `xs...` if and only
if the decorator operation is invocable with `(data, target callable,
xs...)`; when invocable its result equals that invocation's result, and its
failure descriptor identifies the decorator operation (not the target
callable) as the failure site, with the data, function and argument types
attached. -/
theorem decorator_capability_propagation :
    ∀ (τ φ α ρ : Type) (d : τ → φ → List α → Option ρ) (x : τ) (g : φ)
      (xs : List α),
      ((((decorate_apply d x).applyTo g).call xs).isSome
        ↔ (d x g xs).isSome)
      ∧ ((decorate_apply d x).applyTo g).call xs = d x g xs
      ∧ ((decorate_apply d x).applyTo g).failureDescr xs
          = ⟨FailureSite.decoratorOp d, x, g, xs⟩ := by
  exact fun τ φ α ρ d x g xs => ⟨Iff.rfl, rfl, rfl⟩

/-- C6: with an operation that is not invocable at the first reduction step,
both the binary-seeded and the unary fold adaptors refuse the whole call
(SFINAE removes the recursive overload, and the capability query reports
non-invocable) rather than proceeding. The structured failure descriptor
the claim additionally requires is left unimplemented in the source: both
`compress_binary_adaptor_base::base` and `compress_unary_adaptor_base::base`
contain only a `TODO: Implement failure` placeholder. -/
theorem fold_failure_propagation :
    compress_binary_applyO (fun _ _ => (none : Option Nat)) 0 [1] = none
    ∧ compress_unary_applyO (fun _ _ => (none : Option Nat)) [1, 2] = none
    ∧ compress_binary_invocable (fun _ _ => (none : Option Nat)) 0 [1] = false
    ∧ compress_unary_invocable (fun _ _ => (none : Option Nat)) [1, 2] = false := by
  exact ⟨rfl, rfl, rfl, rfl⟩

/-- C7: the fold evaluates strictly left-to-right — the trace's entries
consume the arguments in list order, each step folding the running state
produced by the previous step (the states are `scanl f z xs`) — with
exactly `n` invocations for `n` explicitly-seeded arguments (including zero
for zero arguments) and exactly `n - 1` invocations for `n` self-seeded
arguments; concretely `compress(max)(2, 3, 4, 5) = 5` with exactly the
three invocations `max(2,3)=3`, `max(3,4)=4`, `max(4,5)=5` in that order. -/
theorem fold_invocation_count_and_order :
    (∀ (σ α : Type) (f : σ → α → σ) (z : σ) (xs : List α),
      (compress_binary_trace f z xs).2.length = xs.length
      ∧ (compress_binary_trace f z xs).2.map (fun p => p.2.1) = xs
      ∧ (compress_binary_trace f z xs).2 =
          (List.zip (List.scanl f z xs) xs).map (fun p => (p.1, p.2, f p.1 p.2)))
    ∧ (∀ (α : Type) (f : α → α → α) (x : α) (xs : List α),
      (compress_unary_trace f (x :: xs)).map (fun r => r.2.length)
        = some xs.length)
    ∧ compress_unary_trace max_f [2, 3, 4, 5]
        = some (5, [(2, 3, 3), (3, 4, 4), (4, 5, 5)]) := by
  refine ⟨fun σ α f z xs =>
    ⟨v_fold_trace_length f z xs, v_fold_trace_args f z xs,
      v_fold_trace_eq_scanl f z xs⟩, ?_, by decide⟩
  intro α f x xs
  simp [compress_unary_trace, v_fold_trace_length]

/-- C8: applying a decoration to a target callable never consumes or
mutates it: the `const` application returns the decoration unchanged, the
two invocation objects produced from the same decoration hold their own
copies of the decorator operation and data and their respective targets,
and after invoking one (a `const` call leaving it unchanged) the other's
behaviour is still determined solely by the captured triple. -/
theorem decoration_reuse :
    ∀ (τ φ α ρ : Type) (d : τ → φ → List α → ρ) (x : τ) (g1 g2 : φ)
      (xs ys : List α),
      ((decorate_apply d x).applyToConst g1).2 = decorate_apply d x
      ∧ ((decorate_apply d x).applyToConst g2).2 = decorate_apply d x
      ∧ (decorate_apply d x).applyTo g1
          = DecoratorInvoke.mk d x g1
      ∧ (decorate_apply d x).applyTo g2
          = DecoratorInvoke.mk d x g2
      ∧ (((decorate_apply d x).applyTo g1).callConst xs).2
          = (decorate_apply d x).applyTo g1
      ∧ ((decorate_apply d x).applyTo g2).call ys = d x g2 ys := by
  exact fun τ φ α ρ d x g1 g2 xs ys => ⟨rfl, rfl, rfl, rfl, rfl, rfl⟩

/-- C9: the unary (self-seeding) compress adaptor is not invocable with
zero arguments: the capability query reports non-invocable and the call
itself is ill-formed, for every operation. -/
theorem compress_unary_empty_not_invocable :
    ∀ (α : Type) (f : α → α → Option α) (g : α → α → α),
      compress_unary_invocable f [] = false
      ∧ compress_unary_applyO f [] = none
      ∧ compress_unary_apply g [] = none := by
  exact fun α f g => ⟨rfl, rfl, rfl⟩

/-- C10: every invocation of a decorator-invocation object passes the
captured decorator operation, data and target callable unchanged and never
modifies the stored triple: after any sequence of calls the object equals
the one constructed, and every call's result is the decorator applied to
the identical captured state. -/
theorem decorator_invoke_no_mutation :
    ∀ (τ φ α ρ : Type) (di : DecoratorInvoke τ φ α ρ) (xss : List (List α)),
      (di.callMany xss).1 = di
      ∧ (di.callMany xss).2 = xss.map di.call
      ∧ ∀ xs, (di.callConst xs).2 = di
          ∧ (di.callConst xs).1 = di.d di.t di.f xs := by
  intro τ φ α ρ di xss
  refine ⟨?_, ?_, fun xs => ⟨rfl, rfl⟩⟩
  · induction xss with
    | nil => rfl
    | cons xs rest ih => simpa [DecoratorInvoke.callMany, DecoratorInvoke.callConst] using ih
  · induction xss with
    | nil => rfl
    | cons xs rest ih =>
      simpa [DecoratorInvoke.callMany, DecoratorInvoke.callConst,
        DecoratorInvoke.call] using ih

end Fit
